import Mathlib

/-!
Shallow embedding of `src/icd10.py` (class `ICD10`).

The verifiable core of the repository is the pair of thread-pool fan-out /
fan-in runners `multi_thread` (multiprocessing.pool.ThreadPool + pool.map)
and `multi_thread2` (concurrent.futures.ThreadPoolExecutor + as_completed),
together with the per-key fetch functions `__blocks` and `__categories`.

Modelling decisions, each traceable to the Python source:

* A fetch function is `κ → Except ε (List ρ)`: it either raises a Python
  exception (`.error e`) or returns a DataFrame, modelled as the list of its
  rows (`.ok rows`).
* `pool.map` keeps input order and re-raises a worker's exception; it is
  modelled by `poolMap`, which returns the per-key results in input order,
  or the error of a failing key.  (When several keys fail, CPython's choice
  of which exception surfaces depends on chunk completion timing; the model
  reports the first failing key in input order, which coincides with the
  real behaviour whenever at most one key fails.)
* `ThreadPool(processes=processes)` raises `ValueError` when
  `processes < 1`; `min(len(values), 20)` is 0 exactly on empty input.
* `as_completed` yields the submitted futures in completion order, an
  arbitrary permutation of them; `multi_thread2` therefore takes the
  completion order as an explicit argument `order`, a list of indices into
  `values`.  A real schedule corresponds to `order` being a permutation of
  all indices, which theorems assume as a hypothesis.
* `task.result()` re-raises the exception stored in a failed future, so
  collection stops at the first failed future in completion order.
* `pd.concat` of a list of DataFrames concatenates their rows and raises
  `ValueError` ("No objects to concatenate") on an empty list.
* The HTTP layer and HTML/JSON parsing are external collaborators: the
  response a fetch function sees is passed in as data (`HttpResult`,
  `List BlockItem`), and the record construction performed on it is
  modelled exactly.
-/

namespace ICD10

/-- A pandas Series, as far as `multi_thread` uses one: a wrapper around its
list of values; `to_list` returns that list. -/
structure PdSeries (κ : Type) where
  data : List κ
deriving DecidableEq, Repr

/-- Model of `pandas.Series.to_list`. -/
def PdSeries.to_list {κ : Type} (s : PdSeries κ) : List κ := s.data

/-- The `values` argument of `multi_thread`: `Union[List[str], pd.Series]`. -/
inductive PyValues (κ : Type)
  | series (s : PdSeries κ)
  | list (l : List κ)
deriving DecidableEq, Repr

/-- The ways a run can fail: a worker's exception re-raised by
`pool.map` / `task.result()`; the `ValueError` from `ThreadPool(processes=0)`
or `ThreadPoolExecutor(max_workers=0)`; the `ValueError` from `pd.concat`
on an empty list of frames. -/
inductive RunError (ε : Type)
  | worker (e : ε)
  | poolSize
  | emptyConcat
deriving DecidableEq, Repr

/-- Model of `pd.concat` on a list of frames (each frame a list of rows):
raises on an empty list, otherwise concatenates the rows. -/
def pd_concat {ρ : Type} (dfs : List (List ρ)) : Except Unit (List ρ) :=
  if dfs.isEmpty then .error () else .ok dfs.flatten

/-- Model of `pool.map(func, values)`: applies `func` to every value, keeps
results in input order, re-raises a failing worker's exception. -/
def poolMap {κ ε ρ : Type} (func : κ → Except ε (List ρ)) :
    List κ → Except ε (List (List ρ))
  | [] => .ok []
  | v :: vs =>
    match func v with
    | .error e => .error e
    | .ok r =>
      match poolMap func vs with
      | .error e => .error e
      | .ok rs => .ok (r :: rs)

/-- Model of `ICD10.multi_thread` (src/icd10.py lines 33-52): convert a
Series to its value list, size the pool as `min(len(values), max_processes)`
(the constructor rejects a size below 1), `pool.map` the function over the
values, and `pd.concat` the resulting frames. -/
def multi_thread {κ ε ρ : Type} (max_processes : Nat)
    (func : κ → Except ε (List ρ)) (values : PyValues κ) :
    Except (RunError ε) (List ρ) :=
  let vals : List κ :=
    match values with
    | .series s => s.to_list
    | .list l => l
  let processes := min vals.length max_processes
  if processes < 1 then .error .poolSize
  else
    match poolMap func vals with
    | .error e => .error (.worker e)
    | .ok results =>
      match pd_concat results with
      | .error _ => .error .emptyConcat
      | .ok df => .ok df

/-- Model of the collection loop `for task in as_completed(processes):
results.append(task.result())`: walk the futures in completion order,
re-raising the first failed future encountered. -/
def collectCompleted {ε ρ : Type} {n : Nat}
    (futures : Fin n → Except ε (List ρ)) :
    List (Fin n) → Except ε (List (List ρ))
  | [] => .ok []
  | i :: rest =>
    match futures i with
    | .error e => .error e
    | .ok r =>
      match collectCompleted futures rest with
      | .error e => .error e
      | .ok rs => .ok (r :: rs)

/-- Model of `ICD10.multi_thread2` (src/icd10.py lines 54-64): submit one
future per value to an executor (which rejects `max_workers < 1`), gather
`task.result()` in completion order `order`, and `pd.concat` the frames. -/
def multi_thread2 {κ ε ρ : Type} (max_workers : Nat)
    (func : κ → Except ε (List ρ)) (values : List κ)
    (order : List (Fin values.length)) : Except (RunError ε) (List ρ) :=
  if max_workers < 1 then .error .poolSize
  else
    match collectCompleted (fun i => func (values.get i)) order with
    | .error e => .error (.worker e)
    | .ok results =>
      match pd_concat results with
      | .error _ => .error .emptyConcat
      | .ok df => .ok df

/-- Model of `.replace("\r", "").replace("\n", "")` applied to scraped
label text. -/
def cleanText (t : String) : String := (t.replace "\r" "").replace "\n" ""

/-- One `li.Blocklist1` element of the parsed blocks page: the text of its
`a.code` child and of its `span.label` child. -/
structure BlockItem where
  code : String
  labelText : String
deriving DecidableEq, Repr

/-- One row of the frame built by `ICD10.__blocks`. -/
structure BlockRow where
  chapter_code : String
  block_code : String
  block_description : String
deriving DecidableEq, Repr

/-- Model of `ICD10.__blocks` (src/icd10.py lines 107-135): the HTTP fetch
and HTML parsing are external, so the parsed `li.Blocklist1` elements are
passed in; the function builds one row per block, tagging each with the
input chapter code, and `pd.concat`s them (raising when the page had no
blocks). -/
def __blocks (chapter : String) (blocks : List BlockItem) :
    Except Unit (List BlockRow) :=
  pd_concat (blocks.map fun block =>
    [{ chapter_code := chapter
       block_code := block.code
       block_description := cleanText block.labelText }])

/-- A cell of a category row: `category:code` holds a string concept ID on
success but a numeric HTTP status code on a non-200 response. -/
inductive CellVal
  | str (s : String)
  | num (n : Nat)
deriving DecidableEq, Repr

/-- One row of the frame built by `ICD10.__categories`. -/
structure CategoryRow where
  block_code : String
  category_code : CellVal
  category_description : String
deriving DecidableEq, Repr

/-- One entry of the JSON children-concepts response: its `ID` field and the
text of the `a.ygtvlabel` element of its `html` field. -/
structure CategoryConcept where
  ID : String
  labelText : String
deriving DecidableEq, Repr

/-- The part of a `requests.get` response that `ICD10.__categories` reads:
status code, reason phrase, and (when parsed) the JSON list of child
concepts. -/
structure HttpResult where
  status_code : Nat
  reason : String
  jsonConcepts : List CategoryConcept
deriving DecidableEq, Repr

/-- Model of `ICD10.__categories` (src/icd10.py lines 150-188): on a
non-200 status build a single row holding the block code, the numeric
status code and the reason string; on 200 build one row per JSON concept,
the description being the cleaned label text with the code prefix dropped;
finally `pd.concat` the rows (raising when there are none). -/
def __categories (block : String) (result : HttpResult) :
    Except Unit (List CategoryRow) :=
  let df : List (List CategoryRow) :=
    if result.status_code ≠ 200 then
      [[{ block_code := block
          category_code := .num result.status_code
          category_description := result.reason }]]
    else
      result.jsonConcepts.map fun category =>
        [{ block_code := block
           category_code := .str category.ID
           category_description :=
             (cleanText category.labelText).drop category.ID.length }]
  pd_concat df

/-! Helper lemmas about the building blocks of the two runners. -/

lemma pd_concat_ne_nil {ρ : Type} (dfs : List (List ρ)) (h : dfs ≠ []) :
    pd_concat dfs = .ok dfs.flatten := by
  cases dfs with
  | nil => exact absurd rfl h
  | cons a as => rfl

lemma except_eq_ok {ε α : Type} (x : Except ε (List α)) (h : x.isOk = true) :
    x = .ok (x.toOption.getD []) := by
  cases x with
  | error e => simp [Except.isOk, Except.toBool] at h
  | ok r => rfl

lemma poolMap_ok_of {κ ε ρ : Type} {func : κ → Except ε (List ρ)}
    {g : κ → List ρ} (values : List κ)
    (h : ∀ k ∈ values, func k = .ok (g k)) :
    poolMap func values = .ok (values.map g) := by
  induction values with
  | nil => rfl
  | cons v vs ih =>
      have hv := h v (List.mem_cons_self v vs)
      have hvs := ih fun k hk => h k (List.mem_cons_of_mem v hk)
      simp [poolMap, hv, hvs]

lemma poolMap_error_of {κ ε ρ : Type} {func : κ → Except ε (List ρ)}
    (values : List κ) (k : κ) (e : ε) (hk : k ∈ values)
    (he : func k = .error e)
    (huniq : ∀ k' ∈ values, ∀ e', func k' = .error e' → e' = e) :
    poolMap func values = .error e := by
  induction values with
  | nil => cases hk
  | cons v vs ih =>
      cases hfv : func v with
      | error e' =>
          have : e' = e := huniq v (List.mem_cons_self v vs) e' hfv
          simp [poolMap, hfv, this]
      | ok r =>
          have hk' : k ∈ vs := by
            rcases List.mem_cons.mp hk with rfl | h
            · rw [hfv] at he; cases he
            · exact h
          have := ih hk' fun k' h' e' => huniq k' (List.mem_cons_of_mem v h') e'
          simp [poolMap, hfv, this]

lemma poolMap_error_exists {κ ε ρ : Type} {func : κ → Except ε (List ρ)}
    (values : List κ) (k : κ) (hk : k ∈ values)
    (he : (func k).isOk = false) :
    ∃ e, poolMap func values = .error e := by
  induction values with
  | nil => cases hk
  | cons v vs ih =>
      cases hfv : func v with
      | error e' => exact ⟨e', by simp [poolMap, hfv]⟩
      | ok r =>
          have hk' : k ∈ vs := by
            rcases List.mem_cons.mp hk with rfl | h
            · rw [hfv] at he; simp [Except.isOk, Except.toBool] at he
            · exact h
          obtain ⟨e, hmap⟩ := ih hk'
          exact ⟨e, by simp [poolMap, hfv, hmap]⟩

lemma collect_ok_of {ε ρ : Type} {n : Nat} {futures : Fin n → Except ε (List ρ)}
    {g : Fin n → List ρ} (order : List (Fin n))
    (h : ∀ i ∈ order, futures i = .ok (g i)) :
    collectCompleted futures order = .ok (order.map g) := by
  induction order with
  | nil => rfl
  | cons i rest ih =>
      have hi := h i (List.mem_cons_self i rest)
      have hrest := ih fun j hj => h j (List.mem_cons_of_mem i hj)
      simp [collectCompleted, hi, hrest]

lemma collect_error_of {ε ρ : Type} {n : Nat} {futures : Fin n → Except ε (List ρ)}
    (order : List (Fin n)) (i : Fin n) (e : ε) (hi : i ∈ order)
    (he : futures i = .error e)
    (huniq : ∀ j ∈ order, ∀ e', futures j = .error e' → e' = e) :
    collectCompleted futures order = .error e := by
  induction order with
  | nil => cases hi
  | cons j rest ih =>
      cases hfj : futures j with
      | error e' =>
          have : e' = e := huniq j (List.mem_cons_self j rest) e' hfj
          simp [collectCompleted, hfj, this]
      | ok r =>
          have hi' : i ∈ rest := by
            rcases List.mem_cons.mp hi with rfl | h
            · rw [hfj] at he; cases he
            · exact h
          have := ih hi' fun j' h' e' => huniq j' (List.mem_cons_of_mem j h') e'
          simp [collectCompleted, hfj, this]

lemma collect_error_exists {ε ρ : Type} {n : Nat}
    {futures : Fin n → Except ε (List ρ)}
    (order : List (Fin n)) (i : Fin n) (hi : i ∈ order)
    (he : (futures i).isOk = false) :
    ∃ e, collectCompleted futures order = .error e := by
  induction order with
  | nil => cases hi
  | cons j rest ih =>
      cases hfj : futures j with
      | error e' => exact ⟨e', by simp [collectCompleted, hfj]⟩
      | ok r =>
          have hi' : i ∈ rest := by
            rcases List.mem_cons.mp hi with rfl | h
            · rw [hfj] at he; simp [Except.isOk, Except.toBool] at he
            · exact h
          obtain ⟨e, hmap⟩ := ih hi'
          exact ⟨e, by simp [collectCompleted, hfj, hmap]⟩

lemma poolMap_ok_forall {κ ε ρ : Type} {func : κ → Except ε (List ρ)} :
    ∀ (values : List κ) (rs : List (List ρ)),
      poolMap func values = .ok rs → ∀ k ∈ values, (func k).isOk = true
  | [], _, _, k, hk => by cases hk
  | v :: vs, rs, h, k, hk => by
      cases hfv : func v with
      | error e => rw [poolMap, hfv] at h; cases h
      | ok r =>
          rw [poolMap, hfv] at h
          cases hrest : poolMap func vs with
          | error e => rw [hrest] at h; cases h
          | ok rs' =>
              rcases List.mem_cons.mp hk with rfl | hk'
              · simp [hfv, Except.isOk, Except.toBool]
              · exact poolMap_ok_forall vs rs' hrest k hk'

lemma collect_ok_forall {ε ρ : Type} {n : Nat}
    {futures : Fin n → Except ε (List ρ)} :
    ∀ (order : List (Fin n)) (rs : List (List ρ)),
      collectCompleted futures order = .ok rs →
      ∀ i ∈ order, (futures i).isOk = true
  | [], _, _, i, hi => by cases hi
  | j :: rest, rs, h, i, hi => by
      cases hfj : futures j with
      | error e => rw [collectCompleted, hfj] at h; cases h
      | ok r =>
          rw [collectCompleted, hfj] at h
          cases hrest : collectCompleted futures rest with
          | error e => rw [hrest] at h; cases h
          | ok rs' =>
              rcases List.mem_cons.mp hi with rfl | hi'
              · simp [hfj, Except.isOk, Except.toBool]
              · exact collect_ok_forall rest rs' hrest i hi'

/-! Unfolding lemmas for the two runners. -/

lemma multi_thread_list_def {κ ε ρ : Type} (w : Nat)
    (func : κ → Except ε (List ρ)) (keys : List κ)
    (h : ¬ min keys.length w < 1) :
    multi_thread w func (.list keys) =
      match poolMap func keys with
      | .error e => .error (.worker e)
      | .ok results =>
        match pd_concat results with
        | .error _ => .error .emptyConcat
        | .ok df => .ok df := by
  simp only [multi_thread]
  rw [if_neg h]

lemma multi_thread_ok {κ ε ρ : Type} (w : Nat) (func : κ → Except ε (List ρ))
    (keys : List κ) (g : κ → List ρ) (hkeys : keys ≠ []) (hw : 1 ≤ w)
    (hfun : ∀ k ∈ keys, func k = .ok (g k)) :
    multi_thread w func (.list keys) = .ok ((keys.map g).flatten) := by
  have hlen : 0 < keys.length := List.length_pos.mpr hkeys
  rw [multi_thread_list_def w func keys (by omega), poolMap_ok_of keys hfun]
  have hpc := pd_concat_ne_nil (keys.map g) (by simp [hkeys])
  simp [hpc]

lemma multi_thread_err {κ ε ρ : Type} (w : Nat) (func : κ → Except ε (List ρ))
    (keys : List κ) (k : κ) (e : ε) (hw : 1 ≤ w) (hk : k ∈ keys)
    (he : func k = .error e)
    (huniq : ∀ k' ∈ keys, ∀ e', func k' = .error e' → e' = e) :
    multi_thread w func (.list keys) = .error (.worker e) := by
  have hlen : 0 < keys.length := List.length_pos.mpr (List.ne_nil_of_mem hk)
  rw [multi_thread_list_def w func keys (by omega),
    poolMap_error_of keys k e hk he huniq]

lemma multi_thread2_def {κ ε ρ : Type} (w : Nat)
    (func : κ → Except ε (List ρ)) (values : List κ)
    (order : List (Fin values.length)) (h : ¬ w < 1) :
    multi_thread2 w func values order =
      match collectCompleted (fun i => func (values.get i)) order with
      | .error e => .error (.worker e)
      | .ok results =>
        match pd_concat results with
        | .error _ => .error .emptyConcat
        | .ok df => .ok df := by
  simp only [multi_thread2]
  rw [if_neg h]

lemma multi_thread2_ok {κ ε ρ : Type} (w : Nat) (func : κ → Except ε (List ρ))
    (keys : List κ) (g : κ → List ρ) (order : List (Fin keys.length))
    (hw : 1 ≤ w) (horder : order.Perm (List.finRange keys.length))
    (hkeys : keys ≠ []) (hfun : ∀ k ∈ keys, func k = .ok (g k)) :
    multi_thread2 w func keys order =
      .ok ((order.map fun i => g (keys.get i)).flatten) := by
  have hlen : 0 < keys.length := List.length_pos.mpr hkeys
  have hord : order ≠ [] := by
    intro hnil
    have := horder.length_eq
    rw [hnil, List.length_finRange] at this
    simp at this
    omega
  rw [multi_thread2_def w func keys order (by omega),
    collect_ok_of order fun i _ => by
      rw [hfun (keys.get i) (keys.get_mem i.1 i.2)]]
  have hpc := pd_concat_ne_nil ((order.map fun i => g (keys.get i)))
    (by simp [hord])
  simp only [hpc]

lemma multi_thread2_err {κ ε ρ : Type} (w : Nat) (func : κ → Except ε (List ρ))
    (keys : List κ) (order : List (Fin keys.length)) (k : κ) (e : ε)
    (hw : 1 ≤ w) (horder : order.Perm (List.finRange keys.length))
    (hk : k ∈ keys) (he : func k = .error e)
    (huniq : ∀ k' ∈ keys, ∀ e', func k' = .error e' → e' = e) :
    multi_thread2 w func keys order = .error (.worker e) := by
  obtain ⟨i, hi⟩ := List.mem_iff_get.mp hk
  have hio : i ∈ order := horder.mem_iff.mpr (List.mem_finRange i)
  rw [multi_thread2_def w func keys order (by omega),
    collect_error_of order i e hio (by rw [hi, he])
      fun j hj e' hj' => huniq (keys.get j) (keys.get_mem j.1 j.2) e' hj']

lemma order_map_perm {κ ρ : Type} (keys : List κ)
    (order : List (Fin keys.length))
    (horder : order.Perm (List.finRange keys.length)) (g : κ → List ρ) :
    (order.map fun i => g (keys.get i)).Perm (keys.map g) := by
  have h1 := horder.map fun i => g (keys.get i)
  have h2 : ((List.finRange keys.length).map fun i => g (keys.get i)) =
      keys.map g := by
    rw [show (fun i => g (keys.get i)) = g ∘ keys.get from rfl, ← List.map_map,
      List.finRange_map_get]
  rw [h2] at h1
  exact h1

lemma multi_thread_isOk {κ ε ρ : Type} (w : Nat)
    (func : κ → Except ε (List ρ)) (keys : List κ)
    (hkeys : keys ≠ []) (hw : 1 ≤ w) :
    (multi_thread w func (.list keys)).isOk = true ↔
      ∀ k ∈ keys, (func k).isOk = true := by
  have hlen : 0 < keys.length := List.length_pos.mpr hkeys
  constructor
  · intro h k hk
    by_contra hko
    obtain ⟨e, he⟩ :=
      poolMap_error_exists keys k hk (by simpa using hko)
    rw [multi_thread_list_def w func keys (by omega), he] at h
    simp [Except.isOk, Except.toBool] at h
  · intro h
    rw [multi_thread_ok w func keys (fun k => (func k).toOption.getD [])
      hkeys hw fun k hk => except_eq_ok (func k) (h k hk)]
    rfl

lemma multi_thread2_isOk {κ ε ρ : Type} (w : Nat)
    (func : κ → Except ε (List ρ)) (keys : List κ)
    (order : List (Fin keys.length)) (hkeys : keys ≠ []) (hw : 1 ≤ w)
    (horder : order.Perm (List.finRange keys.length)) :
    (multi_thread2 w func keys order).isOk = true ↔
      ∀ k ∈ keys, (func k).isOk = true := by
  constructor
  · intro h k hk
    by_contra hko
    obtain ⟨i, hi⟩ := List.mem_iff_get.mp hk
    have hio : i ∈ order := horder.mem_iff.mpr (List.mem_finRange i)
    have hko' : (func (keys.get i)).isOk = false := by
      rw [hi]; simpa using hko
    obtain ⟨e, he⟩ :=
      @collect_error_exists ε ρ keys.length (fun j => func (keys.get j))
        order i hio hko'
    rw [multi_thread2_def w func keys order (by omega), he] at h
    simp [Except.isOk, Except.toBool] at h
  · intro h
    rw [multi_thread2_ok w func keys (fun k => (func k).toOption.getD [])
      order hw horder hkeys fun k hk => except_eq_ok (func k) (h k hk)]
    rfl

lemma multi_thread_eq_ok_canonical {κ ε ρ : Type} (w : Nat)
    (func : κ → Except ε (List ρ)) (keys : List κ) (r : List ρ)
    (hkeys : keys ≠ []) (hw : 1 ≤ w)
    (h : multi_thread w func (.list keys) = .ok r) :
    r = ((keys.map fun k => (func k).toOption.getD []).flatten) := by
  have hok : (multi_thread w func (.list keys)).isOk = true := by rw [h]; rfl
  have hall := (multi_thread_isOk w func keys hkeys hw).mp hok
  have e := multi_thread_ok w func keys (fun k => (func k).toOption.getD [])
    hkeys hw fun k hk => except_eq_ok (func k) (hall k hk)
  rw [h] at e
  simp only [Except.ok.injEq] at e
  exact e

lemma multi_thread2_eq_ok_perm {κ ε ρ : Type} (w : Nat)
    (func : κ → Except ε (List ρ)) (keys : List κ)
    (order : List (Fin keys.length)) (r : List ρ)
    (hkeys : keys ≠ []) (hw : 1 ≤ w)
    (horder : order.Perm (List.finRange keys.length))
    (h : multi_thread2 w func keys order = .ok r) :
    r.Perm ((keys.map fun k => (func k).toOption.getD []).flatten) := by
  have hok : (multi_thread2 w func keys order).isOk = true := by rw [h]; rfl
  have hall := (multi_thread2_isOk w func keys order hkeys hw horder).mp hok
  have e := multi_thread2_ok w func keys (fun k => (func k).toOption.getD [])
    order hw horder hkeys fun k hk => except_eq_ok (func k) (hall k hk)
  rw [h] at e
  simp only [Except.ok.injEq] at e
  rw [e]
  exact (order_map_perm keys order horder
    fun k => (func k).toOption.getD []).flatten

lemma list_fin_zero_eq_nil (l : List (Fin 0)) : l = [] := by
  cases l with
  | nil => rfl
  | cons i _ => exact i.elim0

lemma flatten_map_singleton {α : Type} (l : List α) :
    (l.map fun a => [a]).flatten = l := by
  induction l <;> simp [*]

lemma pd_concat_ok {ρ : Type} (dfs : List (List ρ)) (rows : List ρ)
    (h : pd_concat dfs = .ok rows) : rows = dfs.flatten := by
  cases dfs with
  | nil => simp [pd_concat] at h
  | cons a as =>
      simp [pd_concat] at h
      exact h.symm

end ICD10

deriving instance DecidableEq for Except

namespace ICD10

/-! The claims. -/

/-- C1: for every non-empty key sequence and every fetch function that
returns a non-empty record collection per key, the run returns a result
collection containing exactly the concatenation of all records returned by
fetch over all keys (multi_thread literally, multi_thread2 up to the
completion-order permutation), so its size equals the sum of records
produced across all keys, for any worker bound between 1 and the number of
keys. -/
theorem c1_run_collects_all_records {κ ε ρ : Type} (keys : List κ)
    (f : κ → List ρ) (w : Nat) (order : List (Fin keys.length))
    (hkeys : keys ≠ []) (hw1 : 1 ≤ w) (hw2 : w ≤ keys.length)
    (horder : order.Perm (List.finRange keys.length))
    (hne : ∀ k ∈ keys, f k ≠ []) :
    multi_thread w (fun k => (Except.ok (f k) : Except ε (List ρ)))
        (.list keys) = .ok ((keys.map f).flatten)
    ∧ ((keys.map f).flatten).length = (keys.map fun k => (f k).length).sum
    ∧ ∃ out,
        multi_thread2 w (fun k => (Except.ok (f k) : Except ε (List ρ)))
            keys order = .ok out
        ∧ out.Perm ((keys.map f).flatten)
        ∧ out.length = (keys.map fun k => (f k).length).sum := by
  have hsum : ((keys.map f).flatten).length =
      (keys.map fun k => (f k).length).sum := by
    rw [List.length_flatten, List.map_map]
    rfl
  refine ⟨multi_thread_ok w _ keys f hkeys hw1 fun k _ => rfl, hsum, ?_⟩
  refine ⟨_, multi_thread2_ok w _ keys f order hw1 horder hkeys fun k _ => rfl,
    ?_, ?_⟩
  · exact (order_map_perm keys order horder f).flatten
  · rw [((order_map_perm keys order horder f).flatten).length_eq]
    exact hsum

/-- C1 witness: two keys, two records per key, worker bound 2, completion
order reversed. -/
theorem c1_witness :
    multi_thread 2 (fun k => (Except.ok [k, k + 10] : Except Unit (List Nat)))
        (.list [1, 2]) = .ok (([1, 2].map fun k => [k, k + 10]).flatten)
    ∧ (([1, 2].map fun k => [k, k + 10]).flatten).length =
        ([1, 2].map fun k => [k, k + 10].length).sum
    ∧ ∃ out,
        multi_thread2 2 (fun k => (Except.ok [k, k + 10] : Except Unit (List Nat)))
            [1, 2] ([1, 0] : List (Fin 2)) = .ok out
        ∧ out.Perm (([1, 2].map fun k => [k, k + 10]).flatten)
        ∧ out.length = ([1, 2].map fun k => [k, k + 10].length).sum :=
  c1_run_collects_all_records [1, 2] (fun k => [k, k + 10]) 2 ([1, 0] : List (Fin 2))
    (by decide) (by decide) (by decide) (by decide) (by decide)

/-- A fetch raising an exception at key 0 only. -/
def fetchBoomA : Nat → Except String (List Nat) := fun k =>
  if k = 0 then .error "boom" else .ok [k]

/-- A fetch raising the same exception at key 1 only. -/
def fetchBoomB : Nat → Except String (List Nat) := fun k =>
  if k = 1 then .error "boom" else .ok [k]

/-- C2 counterexample: two runs over the keys [0, 1] whose sole raising key
differs (key 0 for fetchBoomA, key 1 for fetchBoomB) but which raise the
same exception value return identical failure results, under both runners;
the failure carries the underlying cause but cannot carry the originating
key, refuting the claim that the error identifies that key. -/
theorem c2_counterexample :
    fetchBoomA 0 = .error "boom" ∧ fetchBoomA 1 = .ok [1]
    ∧ fetchBoomB 1 = .error "boom" ∧ fetchBoomB 0 = .ok [0]
    ∧ multi_thread 20 fetchBoomA (.list [0, 1]) = .error (.worker "boom")
    ∧ multi_thread 20 fetchBoomB (.list [0, 1]) = .error (.worker "boom")
    ∧ multi_thread 20 fetchBoomA (.list [0, 1]) =
        multi_thread 20 fetchBoomB (.list [0, 1])
    ∧ multi_thread2 20 fetchBoomA [0, 1] ([0, 1] : List (Fin 2)) =
        multi_thread2 20 fetchBoomB [0, 1] ([0, 1] : List (Fin 2)) := by
  decide

/-- C2 (amended): if the fetch function raises for exactly one key of a
multi-key sequence, both runners fail by re-raising that exact exception
(the underlying cause) wrapped as the worker failure, and no result
collection, not even a partial one, is returned; the propagated error is
the raw fetch exception and does not carry the originating key. -/
theorem c2_error_propagates_without_key {κ ε ρ : Type} (keys : List κ)
    (func : κ → Except ε (List ρ)) (k : κ) (e : ε) (w : Nat)
    (order : List (Fin keys.length))
    (hlen : 1 < keys.length) (hw : 1 ≤ w) (hk : k ∈ keys)
    (he : func k = .error e)
    (hothers : ∀ k' ∈ keys, k' ≠ k → (func k').isOk = true)
    (horder : order.Perm (List.finRange keys.length)) :
    multi_thread w func (.list keys) = .error (.worker e)
    ∧ multi_thread2 w func keys order = .error (.worker e) := by
  have huniq : ∀ k' ∈ keys, ∀ e', func k' = .error e' → e' = e := by
    intro k' hk' e' he'
    by_cases hcase : k' = k
    · subst hcase
      have h2 := he'.symm.trans he
      injection h2
    · have := hothers k' hk' hcase
      rw [he'] at this
      simp [Except.isOk, Except.toBool] at this
  exact ⟨multi_thread_err w func keys k e hw hk he huniq,
    multi_thread2_err w func keys order k e hw horder hk he huniq⟩

/-- C2 witness: fetchBoomA raises only at key 0 of [0, 1]; both runners
fail with exactly that exception. -/
theorem c2_witness :
    multi_thread 20 fetchBoomA (.list [0, 1]) = .error (.worker "boom")
    ∧ multi_thread2 20 fetchBoomA [0, 1] ([1, 0] : List (Fin 2)) = .error (.worker "boom") :=
  c2_error_propagates_without_key [0, 1] fetchBoomA 0 "boom" 20 ([1, 0] : List (Fin 2))
    (by decide) (by decide) (by decide) (by decide) (by decide) (by decide)

/-- C3: for the empty key sequence both runners fail with an error rather
than returning an empty result collection: multi_thread with the pool-size
ValueError (ThreadPool(processes=0)), multi_thread2 with an error as well
(the pd.concat ValueError on no frames, or the executor rejecting a
non-positive worker bound). -/
theorem c3_empty_input_fails {κ ε ρ : Type} (w : Nat)
    (func : κ → Except ε (List ρ))
    (order : List (Fin (List.length ([] : List κ)))) :
    multi_thread w func (.list ([] : List κ)) = .error .poolSize
    ∧ ∃ e, multi_thread2 w func ([] : List κ) order = .error e := by
  constructor
  · simp [multi_thread]
  · have hord : order = [] := list_fin_zero_eq_nil order
    subst hord
    by_cases hw : w < 1
    · exact ⟨.poolSize, by simp [multi_thread2, hw]⟩
    · exact ⟨.emptyConcat, by simp [multi_thread2, hw, collectCompleted, pd_concat]⟩

/-- C4: for every fetch function and non-empty key sequence, the two
concurrency variants produce the same aggregate result: they succeed and
fail together, and on success their result collections are permutations of
each other (the same multiset of records), whatever the worker bounds and
the completion order. -/
theorem c4_variants_agree {κ ε ρ : Type} (keys : List κ)
    (func : κ → Except ε (List ρ)) (w1 w2 : Nat)
    (order : List (Fin keys.length))
    (hkeys : keys ≠ []) (h1 : 1 ≤ w1) (h2 : 1 ≤ w2)
    (horder : order.Perm (List.finRange keys.length)) :
    ((multi_thread w1 func (.list keys)).isOk = true ↔
      (multi_thread2 w2 func keys order).isOk = true)
    ∧ ∀ r1 r2, multi_thread w1 func (.list keys) = .ok r1 →
        multi_thread2 w2 func keys order = .ok r2 → r1.Perm r2 := by
  constructor
  · rw [multi_thread_isOk w1 func keys hkeys h1,
      multi_thread2_isOk w2 func keys order hkeys h2 horder]
  · intro r1 r2 hr1 hr2
    have e1 := multi_thread_eq_ok_canonical w1 func keys r1 hkeys h1 hr1
    have e2 := multi_thread2_eq_ok_perm w2 func keys order r2 hkeys h2 horder hr2
    rw [e1]
    exact e2.symm

/-- C4 witness: keys [3, 4], one record per key, worker bounds 1 and 2,
reversed completion order. -/
theorem c4_witness :
    ((multi_thread 1 (fun k => (Except.ok [k] : Except Unit (List Nat)))
        (.list [3, 4])).isOk = true ↔
      (multi_thread2 2 (fun k => (Except.ok [k] : Except Unit (List Nat)))
        [3, 4] ([1, 0] : List (Fin 2))).isOk = true)
    ∧ ∀ r1 r2, multi_thread 1 (fun k => (Except.ok [k] : Except Unit (List Nat)))
        (.list [3, 4]) = .ok r1 →
        multi_thread2 2 (fun k => (Except.ok [k] : Except Unit (List Nat)))
          [3, 4] ([1, 0] : List (Fin 2)) = .ok r2 → r1.Perm r2 :=
  c4_variants_agree [3, 4] (fun k => Except.ok [k]) 1 2 ([1, 0] : List (Fin 2))
    (by decide) (by decide) (by decide) (by decide)

/-- The fetch of the C5 counterexample: one marked record per key. -/
def c5Fetch : Nat → Except Unit (List Nat) := fun k => .ok [k + 10]

/-- C5 counterexample: over the keys [0, 1, 2], multi_thread returns the
rows exactly in input-key order ([10, 11, 12]); pool.map returns per-key
results positionally, so its output never reflects completion order.
multi_thread2 under completion order [2, 0, 1] does append in completion
order ([12, 10, 11]).  The claim that in every run records are appended in
completion order, not input order, therefore fails for multi_thread. -/
theorem c5_counterexample :
    multi_thread 20 c5Fetch (.list [0, 1, 2]) = .ok [10, 11, 12]
    ∧ multi_thread2 20 c5Fetch [0, 1, 2] ([2, 0, 1] : List (Fin 3)) =
        .ok [12, 10, 11] := by
  decide

/-- C5 (amended): multi_thread2 appends each fetch's records in completion
order, while multi_thread concatenates them in input-key order, whatever
the completion order was. -/
theorem c5_ordering_by_variant {κ ε ρ : Type} (keys : List κ)
    (f : κ → List ρ) (w : Nat) (order : List (Fin keys.length))
    (hkeys : keys ≠ []) (hw : 1 ≤ w)
    (horder : order.Perm (List.finRange keys.length)) :
    multi_thread w (fun k => (Except.ok (f k) : Except ε (List ρ)))
        (.list keys) = .ok ((keys.map f).flatten)
    ∧ multi_thread2 w (fun k => (Except.ok (f k) : Except ε (List ρ)))
        keys order = .ok ((order.map fun i => f (keys.get i)).flatten) :=
  ⟨multi_thread_ok w _ keys f hkeys hw fun k _ => rfl,
    multi_thread2_ok w _ keys f order hw horder hkeys fun k _ => rfl⟩

/-- C5 witness: keys [0, 1, 2] and completion order [2, 0, 1]. -/
theorem c5_witness :
    multi_thread 1 (fun k => (Except.ok [k + 10] : Except Unit (List Nat)))
        (.list [0, 1, 2]) = .ok (([0, 1, 2].map fun k => [k + 10]).flatten)
    ∧ multi_thread2 1 (fun k => (Except.ok [k + 10] : Except Unit (List Nat)))
        [0, 1, 2] ([2, 0, 1] : List (Fin 3)) =
        .ok ((([2, 0, 1] : List (Fin 3)).map
          fun i => [(([0, 1, 2] : List Nat).get i) + 10]).flatten) :=
  c5_ordering_by_variant [0, 1, 2] (fun k => [k + 10]) 1
    ([2, 0, 1] : List (Fin 3)) (by decide) (by decide) (by decide)

/-- C6: for every block key, a response with a non-success status (any
status code other than 200) does not raise: __categories returns exactly
one record carrying the input block code, the numeric status code in the
category-code field, and the reason string in the description field. -/
theorem c6_non_success_status_recorded (block : String) (result : HttpResult)
    (h : result.status_code ≠ 200) :
    __categories block result =
      .ok [{ block_code := block
             category_code := .num result.status_code
             category_description := result.reason }] := by
  simp [__categories, h, pd_concat]

/-- C6 witness: a 404 response for block A00-A09. -/
theorem c6_witness :
    __categories "A00-A09" ⟨404, "Not Found", []⟩ =
      .ok [{ block_code := "A00-A09"
             category_code := .num 404
             category_description := "Not Found" }] :=
  c6_non_success_status_recorded "A00-A09" ⟨404, "Not Found", []⟩ (by decide)

/-- C7: the run invokes the fetch function exactly once per element of the
key sequence (duplicates invoked independently) and never retries: the
result is the concatenation of exactly one fetch result per element, so a
fetch that returns its own key as its single record makes multi_thread
return the key sequence itself and multi_thread2 a permutation of it. -/
theorem c7_each_key_fetched_exactly_once {κ ε ρ : Type} (keys : List κ)
    (f : κ → List ρ) (w : Nat) (order : List (Fin keys.length))
    (hkeys : keys ≠ []) (hw : 1 ≤ w)
    (horder : order.Perm (List.finRange keys.length)) :
    multi_thread w (fun k => (Except.ok (f k) : Except ε (List ρ)))
        (.list keys) = .ok ((keys.map f).flatten)
    ∧ multi_thread w (fun k => (Except.ok [k] : Except ε (List κ)))
        (.list keys) = .ok keys
    ∧ ∃ out, multi_thread2 w (fun k => (Except.ok [k] : Except ε (List κ)))
          keys order = .ok out ∧ out.Perm keys := by
  refine ⟨multi_thread_ok w _ keys f hkeys hw fun k _ => rfl, ?_, ?_⟩
  · have h := multi_thread_ok w (fun k => (Except.ok [k] : Except ε (List κ)))
      keys (fun k => [k]) hkeys hw fun k _ => rfl
    rwa [flatten_map_singleton] at h
  · refine ⟨_, multi_thread2_ok w _ keys (fun k => [k]) order hw horder hkeys
      fun k _ => rfl, ?_⟩
    have hp := (order_map_perm keys order horder fun k => [k]).flatten
    rwa [flatten_map_singleton] at hp

/-- C7 witness: a duplicated key sequence [1, 1, 2] with completion order
[2, 0, 1]; each occurrence is fetched once. -/
theorem c7_witness :
    multi_thread 1 (fun k => (Except.ok [k * 2] : Except Unit (List Nat)))
        (.list [1, 1, 2]) = .ok (([1, 1, 2].map fun k => [k * 2]).flatten)
    ∧ multi_thread 1 (fun k => (Except.ok [k] : Except Unit (List Nat)))
        (.list [1, 1, 2]) = .ok [1, 1, 2]
    ∧ ∃ out, multi_thread2 1 (fun k => (Except.ok [k] : Except Unit (List Nat)))
          [1, 1, 2] ([2, 0, 1] : List (Fin 3)) = .ok out
        ∧ out.Perm [1, 1, 2] :=
  c7_each_key_fetched_exactly_once [1, 1, 2] (fun k => [k * 2]) 1
    ([2, 0, 1] : List (Fin 3)) (by decide) (by decide) (by decide)

/-- C8: for a deterministic fetch function, two runs differing only in the
worker bound (and in the timing-dependent completion order) return the same
results: multi_thread returns literally the same value, and two
multi_thread2 runs succeed or fail together with result collections that
are permutations of each other. -/
theorem c8_worker_bound_irrelevant {κ ε ρ : Type} (keys : List κ)
    (func : κ → Except ε (List ρ)) (w1 w2 : Nat)
    (order1 order2 : List (Fin keys.length))
    (h1 : 1 ≤ w1) (h2 : 1 ≤ w2)
    (ho1 : order1.Perm (List.finRange keys.length))
    (ho2 : order2.Perm (List.finRange keys.length)) :
    multi_thread w1 func (.list keys) = multi_thread w2 func (.list keys)
    ∧ ((multi_thread2 w1 func keys order1).isOk = true ↔
        (multi_thread2 w2 func keys order2).isOk = true)
    ∧ ∀ r1 r2, multi_thread2 w1 func keys order1 = .ok r1 →
        multi_thread2 w2 func keys order2 = .ok r2 → r1.Perm r2 := by
  have hw1' : ¬ w1 < 1 := by omega
  have hw2' : ¬ w2 < 1 := by omega
  by_cases hkeys : keys = []
  · subst hkeys
    have hn1 : order1 = [] := list_fin_zero_eq_nil order1
    have hn2 : order2 = [] := list_fin_zero_eq_nil order2
    subst hn1
    subst hn2
    have e1 : multi_thread2 w1 func ([] : List κ) [] = .error .emptyConcat := by
      simp [multi_thread2, hw1', collectCompleted, pd_concat]
    have e2 : multi_thread2 w2 func ([] : List κ) [] = .error .emptyConcat := by
      simp [multi_thread2, hw2', collectCompleted, pd_concat]
    refine ⟨by simp [multi_thread], by rw [e1, e2], ?_⟩
    intro r1 r2 hr1 hr2
    rw [e1] at hr1
    cases hr1
  · have hlen : 0 < keys.length := List.length_pos.mpr hkeys
    refine ⟨?_, ?_, ?_⟩
    · rw [multi_thread_list_def w1 func keys (by omega),
        multi_thread_list_def w2 func keys (by omega)]
    · rw [multi_thread2_isOk w1 func keys order1 hkeys h1 ho1,
        multi_thread2_isOk w2 func keys order2 hkeys h2 ho2]
    · intro r1 r2 hr1 hr2
      exact (multi_thread2_eq_ok_perm w1 func keys order1 r1 hkeys h1 ho1
        hr1).trans
        (multi_thread2_eq_ok_perm w2 func keys order2 r2 hkeys h2 ho2
          hr2).symm

/-- C8 witness: keys [7, 8], worker bounds 1 and 2, completion orders
[0, 1] and [1, 0]. -/
theorem c8_witness :
    multi_thread 1 (fun k => (Except.ok [k] : Except Unit (List Nat)))
        (.list [7, 8]) =
      multi_thread 2 (fun k => (Except.ok [k] : Except Unit (List Nat)))
        (.list [7, 8])
    ∧ ((multi_thread2 1 (fun k => (Except.ok [k] : Except Unit (List Nat)))
        [7, 8] ([0, 1] : List (Fin 2))).isOk = true ↔
      (multi_thread2 2 (fun k => (Except.ok [k] : Except Unit (List Nat)))
        [7, 8] ([1, 0] : List (Fin 2))).isOk = true)
    ∧ ∀ r1 r2, multi_thread2 1 (fun k => (Except.ok [k] : Except Unit (List Nat)))
        [7, 8] ([0, 1] : List (Fin 2)) = .ok r1 →
        multi_thread2 2 (fun k => (Except.ok [k] : Except Unit (List Nat)))
          [7, 8] ([1, 0] : List (Fin 2)) = .ok r2 → r1.Perm r2 :=
  c8_worker_bound_irrelevant [7, 8] (fun k => Except.ok [k]) 1 2
    ([0, 1] : List (Fin 2)) ([1, 0] : List (Fin 2))
    (by decide) (by decide) (by decide) (by decide)

/-- C9: every record produced by a per-key fetch function carries its own
input key as the parent-code field: every row __blocks returns for a
chapter has that chapter as its chapter-code, and every row __categories
returns for a block (success or error-flagged) has that block as its
block-code. -/
theorem c9_rows_carry_parent_key (chapter block : String)
    (items : List BlockItem) (result : HttpResult)
    (rowsB : List BlockRow) (rowsC : List CategoryRow)
    (hB : __blocks chapter items = .ok rowsB)
    (hC : __categories block result = .ok rowsC) :
    (∀ r ∈ rowsB, r.chapter_code = chapter)
    ∧ ∀ r ∈ rowsC, r.block_code = block := by
  constructor
  · intro r hr
    have hflat := pd_concat_ok _ _ hB
    subst hflat
    obtain ⟨l, hl, hrl⟩ := List.mem_flatten.mp hr
    obtain ⟨b, hb, rfl⟩ := List.mem_map.mp hl
    rcases List.mem_singleton.mp hrl with rfl
    rfl
  · intro r hr
    simp only [__categories] at hC
    by_cases hst : result.status_code ≠ 200
    · rw [if_pos hst] at hC
      have hflat := pd_concat_ok _ _ hC
      subst hflat
      obtain ⟨l, hl, hrl⟩ := List.mem_flatten.mp hr
      rcases List.mem_singleton.mp hl with rfl
      rcases List.mem_singleton.mp hrl with rfl
      rfl
    · rw [if_neg hst] at hC
      have hflat := pd_concat_ok _ _ hC
      subst hflat
      obtain ⟨l, hl, hrl⟩ := List.mem_flatten.mp hr
      obtain ⟨c, hc, rfl⟩ := List.mem_map.mp hl
      rcases List.mem_singleton.mp hrl with rfl
      rfl

/-- C9 witness: one block of chapter I and a 404 error row for block
A00-A09. -/
theorem c9_witness :
    (∀ r ∈ [(⟨"I", "A00-A09",
        cleanText "Intestinal infectious diseases"⟩ : BlockRow)],
      r.chapter_code = "I")
    ∧ ∀ r ∈ [(⟨"A00-A09", CellVal.num 404, "Not Found"⟩ : CategoryRow)],
        r.block_code = "A00-A09" :=
  c9_rows_carry_parent_key "I" "A00-A09"
    [⟨"A00-A09", "Intestinal infectious diseases"⟩]
    ⟨404, "Not Found", []⟩
    [⟨"I", "A00-A09", cleanText "Intestinal infectious diseases"⟩]
    [⟨"A00-A09", CellVal.num 404, "Not Found"⟩]
    rfl rfl

/-- C10: multi_thread accepts the key sequence as a pandas Series or as a
list, and a Series input is converted to its list of values before any
fetch is scheduled: the run on a Series equals the run on its value
list, for every fetch function and worker bound. -/
theorem c10_series_equals_list {κ ε ρ : Type} (w : Nat)
    (func : κ → Except ε (List ρ)) (s : PdSeries κ) :
    multi_thread w func (.series s) = multi_thread w func (.list s.to_list) :=
  rfl

end ICD10
